import Mathlib

/-!
Verification of the toonjs tabular-data engine (`src/toon.ts`) against its
natural-language specification.

The embedding models JavaScript scalar values with rationals in place of IEEE
doubles (no claim below depends on rounding), `NaN` as `Option.none` after
numeric coercion, and rows as association lists mirroring JS objects
(insertion-ordered keys, assignment updates in place or appends).
-/

namespace ToonJS

/-- A JavaScript scalar value as stored in a dataset row: a number, a string,
`null`, or `undefined`. -/
inductive JSValue where
  | num (q : ℚ)
  | str (s : String)
  | vnull
  | vundef
deriving DecidableEq, Repr

/-- Numeric value of a digit character. -/
def digitsVal (cs : List Char) : ℕ :=
  cs.foldl (fun n c => 10 * n + (c.toNat - 48)) 0

/-- Parse the trimmed, non-empty character list of a decimal numeric literal:
optional sign, then digits with an optional fractional part.  `none` means the
string does not parse as a number (JS `NaN`).  Exponent, hex and `Infinity`
forms are not modelled; no claim depends on them. -/
def jsParseNum (cs : List Char) : Option ℚ :=
  let signed : ℚ × List Char :=
    match cs with
    | '-' :: r => (-1, r)
    | '+' :: r => (1, r)
    | r => (1, r)
  let intDigits := signed.2.takeWhile Char.isDigit
  let rest := signed.2.drop intDigits.length
  match rest with
  | [] => if intDigits.isEmpty then none else some (signed.1 * digitsVal intDigits)
  | '.' :: frac =>
    if frac.all Char.isDigit && !(intDigits.isEmpty && frac.isEmpty) then
      some (signed.1 * ((digitsVal intDigits : ℚ) +
        (digitsVal frac : ℚ) / ((10 : ℚ) ^ frac.length)))
    else none
  | _ => none

/-- Whitespace stripped by JS numeric string coercion. -/
def jsWhitespace (c : Char) : Bool :=
  c == ' ' || c == '\t' || c == '\n' || c == '\r'

/-- Strip leading and trailing whitespace from a character list. -/
def jsTrimList (cs : List Char) : List Char :=
  ((cs.dropWhile jsWhitespace).reverse.dropWhile jsWhitespace).reverse

/-- JavaScript `Number(v)` coercion; `none` models `NaN`.
`Number(null) = 0`, `Number(undefined) = NaN`, strings are trimmed and the
empty or all-whitespace string coerces to `0`. -/
def toNum : JSValue → Option ℚ
  | .num q => some q
  | .str s =>
    match jsTrimList s.data with
    | [] => some 0
    | cs => jsParseNum cs
  | .vnull => some 0
  | .vundef => none

/-- JS object assignment `r[k] = v`: update the existing entry in place
(keeping its position, as JS objects do) or append a new entry. -/
def recordSet {α : Type} (r : List (String × α)) (k : String) (v : α) :
    List (String × α) :=
  match r with
  | [] => [(k, v)]
  | (k', v') :: rest => if k' = k then (k, v) :: rest else (k', v') :: recordSet rest k v

/-- A dataset row: a JS object as an insertion-ordered association list. -/
abbrev Row := List (String × JSValue)

/-- JS property read `row[k]`: the first entry for `k`, or `undefined`. -/
def rowGet (r : Row) (k : String) : JSValue :=
  match r.lookup k with
  | some v => v
  | none => .vundef

deriving instance DecidableEq for Except

/-- The dataset structure `{name, schema, rows}`; the schema is an
insertion-ordered record of field name to declared type string. -/
structure ToonDataset where
  name : String
  schema : List (String × String)
  rows : List Row
deriving DecidableEq, Repr

/-- `pluck(field)`: the column of raw values of one field. -/
def pluck (t : ToonDataset) (field : String) : List JSValue :=
  t.rows.map (fun r => rowGet r field)

/-- Truthiness of `schema[field]` in JS: present with a non-empty type string. -/
def schemaHas (schema : List (String × String)) (f : String) : Bool :=
  match schema.lookup f with
  | some s => s ≠ ""
  | none => false

/-- `select(...fields)` from `src/toon.ts`: build the projected schema by
inserting each passed field that exists in the schema, and rebuild each row
keeping each passed field present in that row. -/
def select (t : ToonDataset) (fields : List String) : ToonDataset :=
  let newSchema := fields.foldl
    (fun acc f =>
      if schemaHas t.schema f then recordSet acc f ((t.schema.lookup f).getD "") else acc)
    []
  let newRows := t.rows.map (fun row =>
    fields.foldl
      (fun nr f => if (row.lookup f).isSome then recordSet nr f (rowGet row f) else nr)
      [])
  { t with schema := newSchema, rows := newRows }

/-- The valid numeric values of a field, in row order:
`rows.map(r => Number(r[field])).filter(v => !isNaN(v))`. -/
def validNums (t : ToonDataset) (field : String) : List ℚ :=
  t.rows.filterMap (fun r => toNum (rowGet r field))

/-- Result record of `stats(field)`. -/
structure StatsResult where
  min : ℚ
  max : ℚ
  avg : ℚ
  sum : ℚ
  count : ℕ
deriving DecidableEq, Repr

/-- The aggregation step of `stats` over the filtered valid values: all-zero
result when none remain, else min / max / avg / sum / count over them. -/
def statsOf : List ℚ → StatsResult
  | [] => ⟨0, 0, 0, 0, 0⟩
  | v :: vs =>
    let s := (v :: vs).sum
    ⟨vs.foldl min v, vs.foldl max v, s / (v :: vs).length, s, (v :: vs).length⟩

/-- `stats(field)` from `src/toon.ts`:
`rows.map(r => Number(r[field])).filter(v => !isNaN(v))`, then aggregate. -/
def stats (t : ToonDataset) (field : String) : StatsResult :=
  statsOf (validNums t field)

/-- `covariance(field1, field2)` from `src/toon.ts`: each column is filtered to
its valid values independently; `0` when the two filtered lists have different
lengths or are empty; otherwise the filtered lists are paired positionally. -/
def covariance (t : ToonDataset) (f1 f2 : String) : ℚ :=
  let v1 := validNums t f1
  let v2 := validNums t f2
  if v1.length ≠ v2.length ∨ v1.length = 0 then 0
  else
    let m1 := v1.sum / v1.length
    let m2 := v2.sum / v2.length
    ((v1.zip v2).map (fun p => (p.1 - m1) * (p.2 - m2))).sum / v1.length

/-- The jointly valid numeric pair of one row, when both fields coerce. -/
def pairNum (f1 f2 : String) (r : Row) : Option (ℚ × ℚ) :=
  match toNum (rowGet r f1), toNum (rowGet r f2) with
  | some a, some b => some (a, b)
  | _, _ => none

/-- The jointly valid pairs of two fields, in row order. -/
def validPairs (t : ToonDataset) (f1 f2 : String) : List (ℚ × ℚ) :=
  t.rows.filterMap (pairNum f1 f2)

/-- Modelled from the spec (for comparison with `covariance`): the
pairwise-complete covariance, computed over exactly the row positions where
both fields coerce to valid numbers, with both means taken over those pairs;
`0` when there are no valid pairs. -/
def covariancePairwiseSpec (t : ToonDataset) (f1 f2 : String) : ℚ :=
  let ps := validPairs t f1 f2
  if ps.length = 0 then 0
  else
    let m1 := (ps.map Prod.fst).sum / ps.length
    let m2 := (ps.map Prod.snd).sum / ps.length
    (ps.map (fun p => (p.1 - m1) * (p.2 - m2))).sum / ps.length

/-- The value written by `addMatrix` at a selected key: the sum when both
sides coerce to valid numbers, else the left row's raw value. -/
def addVal (r1 r2 : Row) (k : String) : JSValue :=
  match toNum (rowGet r1 k), toNum (rowGet r2 k) with
  | some a, some b => .num (a + b)
  | _, _ => rowGet r1 k

/-- `addMatrix(other, fields?)` from `src/toon.ts`: with unequal row counts it
throws; otherwise, using the key list of this dataset's first row, keys outside
the selected field set are copied from this dataset's row and selected keys get
`addVal`.  The result row is built copy-keys first, then add-keys, as in the
code. -/
def addMatrix (t other : ToonDataset) (fields : Option (List String)) :
    Except String ToonDataset :=
  let fieldsToAdd := fields.getD (t.schema.map Prod.fst)
  if t.rows.length ≠ other.rows.length then
    .error "Datasets must have the same number of rows"
  else
    let keys := (t.rows.headD []).map Prod.fst
    let addKeys := keys.filter (fun k => k ∈ fieldsToAdd)
    let copyKeys := keys.filter (fun k => k ∉ fieldsToAdd)
    let newRows := (t.rows.zip other.rows).map (fun pr =>
      let nr := copyKeys.foldl (fun nr k => recordSet nr k (rowGet pr.1 k)) []
      addKeys.foldl (fun nr k => recordSet nr k (addVal pr.1 pr.2 k)) nr)
    .ok { t with rows := newRows }

/-- The `'max'` branch of `norm(type, fields?)` from `src/toon.ts`: `0` when
there is no first row, else `Math.max` of the absolute values of the first
row's valid field values.  `Math.max` of an empty argument list is `-Infinity`,
modelled as `⊥ : WithBot ℚ`. -/
def normMax (t : ToonDataset) (fields : Option (List String)) : WithBot ℚ :=
  match t.rows.head? with
  | none => ((0 : ℚ) : WithBot ℚ)
  | some firstRow =>
    let values := (fields.getD (t.schema.map Prod.fst)).filterMap
      (fun f => toNum (rowGet firstRow f))
    (values.map (fun q => ((|q| : ℚ) : WithBot ℚ))).foldl max ⊥

/-- The rolling-window operation selector. -/
inductive RollOp where
  | sum
  | avg
  | min
  | max
deriving DecidableEq, Repr

/-- Name suffix of a rolling operation. -/
def RollOp.opName : RollOp → String
  | .sum => "sum"
  | .avg => "avg"
  | .min => "min"
  | .max => "max"

/-- The valid values of `values` at window positions `start, …, start+n-1`. -/
def wvals (values : List (Option ℚ)) (start n : ℕ) : List ℚ :=
  (List.range' start n).filterMap (fun i => values.getD i none)

/-- One iteration of the incremental sum/avg loop of `rolling`: recompute the
window sum and valid count from scratch while the window is still left-truncated
(`idx = 0` or `start = 0`), else subtract the leaving value and add the entering
value, each only when valid.  `idx + 1 - w` is the JS `max(0, idx - w + 1)`. -/
def rollStep (w : ℕ) (values : List (Option ℚ)) (idx : ℕ) (prev : ℚ × ℤ) :
    ℚ × ℤ :=
  let start := idx + 1 - w
  if idx = 0 ∨ start = 0 then
    ((wvals values start (idx + 1 - start)).sum,
     ((wvals values start (idx + 1 - start)).length : ℤ))
  else
    let p1 :=
      if w ≤ idx then
        match values.getD (idx - w) none with
        | some q => (prev.1 - q, prev.2 - 1)
        | none => prev
      else prev
    match values.getD idx none with
    | some q => (p1.1 + q, p1.2 + 1)
    | none => p1

/-- The per-index window states of the sum/avg rolling loop, starting at
index `idx` with `fuel` indices left and accumulator `prev`. -/
def rollStatesAux (w : ℕ) (values : List (Option ℚ)) :
    ℕ → ℕ → ℚ × ℤ → List (ℚ × ℤ)
  | _, 0, _ => []
  | idx, fuel + 1, prev =>
    let st := rollStep w values idx prev
    st :: rollStatesAux w values (idx + 1) fuel st

/-- All window states of the sum/avg rolling loop. -/
def rollStates (w : ℕ) (values : List (Option ℚ)) : List (ℚ × ℤ) :=
  rollStatesAux w values 0 values.length (0, 0)

/-- The min/max branch of `rolling` at one index: the extremum of the valid
values in the window, or `0` when the window holds no valid value. -/
def rollExtremum (op : RollOp) (w : ℕ) (values : List (Option ℚ)) (idx : ℕ) : ℚ :=
  let start := idx + 1 - w
  match wvals values start (idx + 1 - start) with
  | [] => 0
  | v :: vs => if op = .min then vs.foldl min v else vs.foldl max v

/-- `rolling(field, windowSize, operation)` from `src/toon.ts`.  The key list of
the first row is read unconditionally (`Object.keys(rows[0])`), so an empty
dataset throws a `TypeError`; the window size is modelled as a natural number. -/
def rolling (t : ToonDataset) (field : String) (w : ℕ) (op : RollOp) :
    Except String ToonDataset :=
  let newFieldName := field ++ "_rolling_" ++ op.opName
  match t.rows.head? with
  | none => .error "TypeError: Cannot convert undefined or null to object"
  | some firstRow =>
    let keys := firstRow.map Prod.fst
    let values := t.rows.map (fun r => toNum (rowGet r field))
    let results : List ℚ :=
      match op with
      | .sum => (rollStates w values).map Prod.fst
      | .avg => (rollStates w values).map
          (fun p => if 0 < p.2 then p.1 / (p.2 : ℚ) else 0)
      | _ => (List.range values.length).map (fun idx => rollExtremum op w values idx)
    let newRows := (t.rows.zip results).map (fun pr =>
      let nr := keys.foldl (fun nr k => recordSet nr k (rowGet pr.1 k)) []
      recordSet nr newFieldName (.num pr.2))
    .ok { t with schema := recordSet t.schema newFieldName "number", rows := newRows }

/-- The specified window aggregate at position `idx`: the sum and valid count
over window positions `max(0, idx - w + 1) … idx` (in ℕ, `idx + 1 - w` is that
truncated lower bound). -/
def windowState (values : List (Option ℚ)) (w idx : ℕ) : ℚ × ℤ :=
  ((wvals values (idx + 1 - w) (idx + 1 - (idx + 1 - w))).sum,
   ((wvals values (idx + 1 - w) (idx + 1 - (idx + 1 - w))).length : ℤ))

/-- Pair each element with its 0-based position, as
`values.map((v, idx) => ({value: v, index: idx}))` does. -/
def withIdx {α : Type} : ℕ → List α → List (α × ℕ)
  | _, [] => []
  | i, a :: as => (a, i) :: withIdx (i + 1) as

/-- The ranking tie method. -/
inductive RankMethod where
  | dense
  | rmin
  | rmax
deriving DecidableEq, Repr

/-- JS `===` between the numeric values of two rank entries; `NaN === NaN` is
false. -/
def jsEqNum : Option ℚ → Option ℚ → Bool
  | some a, some b => a = b
  | _, _ => false

/-- The "may sort at or before" relation realising the descending comparator
`(a, b) => b.value - a.value` of `rank`.  When either value is `NaN` the JS
comparator is inconsistent and the sort order implementation-dependent; entries
with missing values are modelled as sorting after all valid entries. -/
def rankLeB (x y : Option ℚ × ℕ) : Bool :=
  match x.1, y.1 with
  | some a, some b => b ≤ a
  | none, _ => true
  | some _, none => false

/-- `rankLeB` as a proposition, for `List.insertionSort`. -/
def RankLe (x y : Option ℚ × ℕ) : Prop := rankLeB x y = true

instance : DecidableRel RankLe := fun x y => by
  unfold RankLe; infer_instance

instance : IsTotal (Option ℚ × ℕ) RankLe where
  total x y := by
    rcases x with ⟨_ | a, i⟩ <;> rcases y with ⟨_ | b, j⟩ <;>
      simp [RankLe, rankLeB]
    exact le_total b a

instance : IsTrans (Option ℚ × ℕ) RankLe where
  trans x y z := by
    rcases x with ⟨_ | a, i⟩ <;> rcases y with ⟨_ | b, j⟩ <;>
      rcases z with ⟨_ | c, k⟩ <;> simp [RankLe, rankLeB]
    exact fun h1 h2 => h2.trans h1

/-- JS array assignment `ranks[idx] = r` on the natural-number-keyed rank map. -/
def recordSetNat (r : List (ℕ × ℕ)) (k : ℕ) (v : ℕ) : List (ℕ × ℕ) :=
  match r with
  | [] => [(k, v)]
  | (k', v') :: rest => if k' = k then (k, v) :: rest else (k', v') :: recordSetNat rest k v

/-- The rank-assignment loop of `rank` over the descending-sorted entries,
carrying the previous entry, the loop index `i`, `currentRank`, and the map
from original row index to assigned rank.  A tied entry copies the previous
entry's rank; at a value change `dense` continues from the previous entry's
rank and `min`/`max` restart at the 1-based sorted position.  (The source also
increments `currentRank` after the final non-dense entry; that write is dead,
the loop ends there.) -/
def rankAssignAux (method : RankMethod) :
    List (Option ℚ × ℕ) → Option (Option ℚ × ℕ) → ℕ → ℕ → List (ℕ × ℕ) →
    List (ℕ × ℕ)
  | [], _, _, _, ranks => ranks
  | x :: rest, prev, i, currentRank, ranks =>
    match prev with
    | some p =>
      if jsEqNum x.1 p.1 then
        rankAssignAux method rest (some x) (i + 1) currentRank
          (recordSetNat ranks x.2 ((ranks.lookup p.2).getD 0))
      else
        let cr :=
          if method = .dense ∧ 0 < i then (ranks.lookup p.2).getD 0 + 1
          else if method = .rmin ∨ method = .rmax then i + 1
          else currentRank
        rankAssignAux method rest (some x) (i + 1) cr (recordSetNat ranks x.2 cr)
    | none =>
      let cr :=
        if method = .rmin ∨ method = .rmax then i + 1
        else currentRank
      rankAssignAux method rest (some x) (i + 1) cr (recordSetNat ranks x.2 cr)

/-- `rank(field, method)` from `src/toon.ts`: pair each row's coerced value
with its index, sort descending (JS sort is stable; modelled by a stable
insertion sort), assign ranks by the tie method, and append a `field_rank`
column holding each row's rank. -/
def rank (t : ToonDataset) (field : String) (method : RankMethod) : ToonDataset :=
  let newFieldName := field ++ "_rank"
  let values := t.rows.map (fun r => toNum (rowGet r field))
  let sorted := List.insertionSort RankLe (withIdx 0 values)
  let ranks := rankAssignAux method sorted none 0 1 []
  let newRows := (withIdx 0 t.rows).map (fun pr =>
    recordSet pr.1 newFieldName
      (match ranks.lookup pr.2 with
       | some r => .num r
       | none => .vundef))
  { t with schema := recordSet t.schema newFieldName "number", rows := newRows }

/-!
Aliasing model for `clone` and `interpolate`.  JS row objects are mutable and
shared by reference, so these two operations are modelled against an explicit
heap of row objects: a handle holds references into the heap, `clone` copies
only the reference array (`rows: [...this.dataset.rows]`), and `interpolate`
writes `newRows[i][field] = …` through those references.
-/

/-- The heap of live row objects, addressed by position. -/
abbrev Store := List Row

/-- A dataset handle whose `rows` array holds references into a `Store`. -/
structure HToon where
  name : String
  schema : List (String × String)
  refs : List ℕ
deriving DecidableEq, Repr

/-- The rows observable through a handle: each reference dereferenced in the
current heap. -/
def hRows (st : Store) (h : HToon) : List Row :=
  h.refs.map (fun r => st.getD r [])

/-- `clone()` from `src/toon.ts`: a new handle whose rows array is a shallow
copy — the same row references. -/
def hClone (h : HToon) : HToon :=
  { name := h.name, schema := h.schema, refs := h.refs }

/-- The missing test of `interpolate`: a value is missing when `Number(v)` is
`NaN` or `v` is `null` or `undefined`. -/
def interpMissing (v : JSValue) : Option ℚ :=
  match v with
  | .vnull => none
  | .vundef => none
  | _ => toNum v

/-- The nearest valid index strictly before `i` (the backwards scan of
`interpolate`). -/
def findPrev (values : List (Option ℚ)) (i : ℕ) : Option ℕ :=
  (List.range i).reverse.find? (fun j => (values.getD j none).isSome)

/-- The nearest valid index strictly after `i` (the forwards scan of
`interpolate`). -/
def findNext (values : List (Option ℚ)) (i : ℕ) : Option ℕ :=
  (List.range' (i + 1) (values.length - (i + 1))).find? (fun j => (values.getD j none).isSome)

/-- Overwrite one field of the row object at heap address `ref`. -/
def storeSetField (st : Store) (ref : ℕ) (field : String) (v : JSValue) : Store :=
  st.set ref (recordSet (st.getD ref []) field v)

/-- One field of the `interpolate(fields, 'linear')` loop: read the column
through the handle's references, and at each missing position write the
linearly interpolated (or forward/backward filled) value into the referenced
row object. -/
def interpField (st : Store) (refs : List ℕ) (field : String) : Store :=
  let values := refs.map (fun ref => interpMissing (rowGet (st.getD ref []) field))
  if values.all Option.isNone then st
  else
    (withIdx 0 values).foldl (fun st pr =>
      match pr.1 with
      | some _ => st
      | none =>
        let i := pr.2
        match findPrev values i, findNext values i with
        | some p, some n =>
          let pv := (values.getD p none).getD 0
          let nv := (values.getD n none).getD 0
          let ratio := ((i : ℚ) - (p : ℚ)) / ((n : ℚ) - (p : ℚ))
          storeSetField st (refs.getD i 0) field (.num (pv + ratio * (nv - pv)))
        | some p, none =>
          storeSetField st (refs.getD i 0) field (.num ((values.getD p none).getD 0))
        | none, some n =>
          storeSetField st (refs.getD i 0) field (.num ((values.getD n none).getD 0))
        | none, none => st) st

/-- `interpolate(fields?, 'linear')` from `src/toon.ts` over the heap model:
processes each field in turn, mutating the referenced row objects in place;
the returned handle holds the same references (`newRows = [...rows]`). -/
def interpolate (st : Store) (h : HToon) (fields : Option (List String)) :
    Store × HToon :=
  let fs := fields.getD (h.schema.map Prod.fst)
  let st' := fs.foldl (fun st f => interpField st h.refs f) st
  (st', { name := h.name, schema := h.schema, refs := h.refs })

/-! ### Concrete datasets used by counterexamples and witnesses -/

/-- The heap for the clone/interpolate aliasing scenario:
rows `[{a:1}, {a:null}]`. -/
def c1Store : Store :=
  [[("a", JSValue.num 1)], [("a", JSValue.vnull)]]

/-- The handle owning the two rows of `c1Store`. -/
def c1Handle : HToon := ⟨"t", [("a", "number")], [0, 1]⟩

/-- A two-field dataset used to exhibit `select`'s schema ordering. -/
def c4Data : ToonDataset :=
  ⟨"ds", [("a", "number"), ("b", "number")], [[("a", JSValue.num 1), ("b", JSValue.num 2)]]⟩

/-- Rows `[{a:1}, {b:1}, {a:2, b:2}]`: the two fields are each valid in two
rows, but jointly valid only in the last one. -/
def c2Data : ToonDataset :=
  ⟨"ds", [("a", "number"), ("b", "number")],
   [[("a", JSValue.num 1)], [("b", JSValue.num 1)],
    [("a", JSValue.num 2), ("b", JSValue.num 2)]]⟩

/-- Left dataset for the `addMatrix` pass-through witness: the selected field
`x` is invalid (`undefined`) so the written value needs no arithmetic. -/
def c8A : ToonDataset :=
  ⟨"A", [("x", "number"), ("y", "number")],
   [[("x", JSValue.vundef), ("y", JSValue.num 10)]]⟩

/-- Right dataset for the `addMatrix` pass-through witness. -/
def c8B : ToonDataset :=
  ⟨"B", [("x", "number"), ("y", "number")],
   [[("x", JSValue.num 2), ("y", JSValue.num 20)]]⟩

/-- A zero-row dataset, mismatching `c8A`'s one row. -/
def c8Bbad : ToonDataset := ⟨"B2", [("x", "number"), ("y", "number")], []⟩

/-- The result handle of `addMatrix c8A c8B (some ["x"])`. -/
def c8T : ToonDataset :=
  ⟨"A", [("x", "number"), ("y", "number")],
   [[("y", JSValue.num 10), ("x", JSValue.vundef)]]⟩

/-- Left dataset for the commutativity counterexample: `x` is `undefined`. -/
def c5A : ToonDataset := ⟨"A", [("x", "number")], [[("x", JSValue.vundef)]]⟩

/-- Right dataset for the commutativity counterexample: `x` is `5`. -/
def c5B : ToonDataset := ⟨"B", [("x", "number")], [[("x", JSValue.num 5)]]⟩

/-- Left dataset for the commutativity witness. -/
def c5wA : ToonDataset := ⟨"A", [("x", "number")], [[("x", JSValue.num 1)]]⟩

/-- Right dataset for the commutativity witness. -/
def c5wB : ToonDataset := ⟨"B", [("x", "number")], [[("x", JSValue.num 2)]]⟩

/-- The rank a value receives among a column's values, characterised by
counting: `dense` is one plus the number of distinct strictly greater values
(no gaps after ties); `min`/`max` as implemented are one plus the number of
strictly greater values — the 1-based ordinal position of the FIRST element of
the tied group in descending order. -/
def rankChar (method : RankMethod) (qs : List ℚ) (q : ℚ) : ℕ :=
  match method with
  | .dense => 1 + ((qs.filter (fun v => q < v)).dedup).length
  | _ => 1 + (qs.filter (fun v => q < v)).length

/-- Rows `[{v:5}, {v:5}, {v:3}]`: a tied group of two at the top. -/
def c3Data : ToonDataset :=
  ⟨"ds", [("v", "number")],
   [[("v", JSValue.num 5)], [("v", JSValue.num 5)], [("v", JSValue.num 3)]]⟩

/-- The spec's ranking scenario: scores `[85, 92, 78, 92, 88]`. -/
def exScore : ToonDataset :=
  ⟨"ds", [("score", "number")],
   [[("score", JSValue.num 85)], [("score", JSValue.num 92)], [("score", JSValue.num 78)],
    [("score", JSValue.num 92)], [("score", JSValue.num 88)]]⟩

/-- The five-row dataset of the spec's rolling-average scenario. -/
def exRolling : ToonDataset :=
  ⟨"ds", [("val", "number")],
   [[("val", JSValue.num 10)], [("val", JSValue.num 20)], [("val", JSValue.num 30)],
    [("val", JSValue.num 40)], [("val", JSValue.num 50)]]⟩

/-! ### Basic lemmas about records, folds and indexed lists -/

theorem lookup_recordSet {α : Type} (r : List (String × α)) (k k' : String) (v : α) :
    (recordSet r k v).lookup k' = if k' = k then some v else r.lookup k' := by
  induction r with
  | nil =>
    by_cases h : k' = k
    · subst h; simp [recordSet]
    · have hb : (k' == k) = false := by simpa using h
      simp [recordSet, List.lookup_cons, hb, h]
  | cons hd tl ih =>
    obtain ⟨hk, hv⟩ := hd
    by_cases h1 : hk = k
    · subst h1
      by_cases h2 : k' = hk
      · have hb : (k' == hk) = true := by simp [h2]
        simp [recordSet, List.lookup_cons, hb, h2]
      · have hb : (k' == hk) = false := by simpa using h2
        simp [recordSet, List.lookup_cons, hb, h2]
    · by_cases h2 : k' = hk
      · have hb : (k' == hk) = true := by simp [h2]
        have hne : ¬ k' = k := by rw [h2]; exact h1
        simp [recordSet, h1, List.lookup_cons, hb, hne]
      · have hb : (k' == hk) = false := by simpa using h2
        simp [recordSet, h1, List.lookup_cons, hb, ih]

theorem rowGet_recordSet_self (r : Row) (k : String) (v : JSValue) :
    rowGet (recordSet r k v) k = v := by
  simp [rowGet, lookup_recordSet]

theorem rowGet_eq_of_lookup {r : Row} {k : String} {v : JSValue}
    (h : r.lookup k = some v) : rowGet r k = v := by
  simp [rowGet, h]

/-- Lookup after a fold of conditional record assignments whose written value
depends only on the key. -/
theorem lookup_foldl_recordSet {α : Type} (cond : String → Bool) (f : String → α) :
    ∀ (ks : List String) (init : List (String × α)) (k' : String),
    ((ks.foldl (fun nr k => if cond k then recordSet nr k (f k) else nr) init).lookup k')
      = if k' ∈ ks ∧ cond k' then some (f k') else init.lookup k' := by
  intro ks
  induction ks with
  | nil => simp
  | cons hd tl ih =>
    intro init k'
    simp only [List.foldl_cons]
    rw [ih]
    by_cases hA : k' ∈ tl ∧ cond k' = true
    · have hA' : k' ∈ hd :: tl ∧ cond k' = true := ⟨List.mem_cons_of_mem _ hA.1, hA.2⟩
      simp [hA, hA']
    · simp only [hA, if_false]
      by_cases heq : k' = hd
      · subst heq
        by_cases hc : cond k' = true
        · simp [hc, lookup_recordSet, List.mem_cons]
        · simp only [Bool.not_eq_true] at hc
          simp [hc]
      · have hcond : (k' ∈ hd :: tl ∧ cond k' = true) ↔ (k' ∈ tl ∧ cond k' = true) := by
          constructor
          · rintro ⟨h1, h2⟩
            rcases List.mem_cons.1 h1 with h | h
            · exact absurd h heq
            · exact ⟨h, h2⟩
          · rintro ⟨h1, h2⟩; exact ⟨List.mem_cons_of_mem _ h1, h2⟩
        rw [if_neg (fun hh => hA (hcond.1 hh))]
        by_cases hc : cond hd = true
        · simp [hc, lookup_recordSet, heq]
        · simp only [Bool.not_eq_true] at hc
          simp [hc]

/-- The unconditional variant of `lookup_foldl_recordSet`. -/
theorem lookup_foldl_recordSet' {α : Type} (f : String → α)
    (ks : List String) (init : List (String × α)) (k' : String) :
    ((ks.foldl (fun nr k => recordSet nr k (f k)) init).lookup k')
      = if k' ∈ ks then some (f k') else init.lookup k' := by
  have h := lookup_foldl_recordSet (fun _ => true) f ks init k'
  simp only [if_true, and_true] at h
  simpa using h

theorem withIdx_map_fst {α : Type} : ∀ (n : ℕ) (l : List α),
    (withIdx n l).map Prod.fst = l := by
  intro n l
  induction l generalizing n with
  | nil => rfl
  | cons hd tl ih => simp [withIdx, ih]

theorem withIdx_map_snd {α : Type} : ∀ (n : ℕ) (l : List α),
    (withIdx n l).map Prod.snd = List.range' n l.length := by
  intro n l
  induction l generalizing n with
  | nil => rfl
  | cons hd tl ih => simp [withIdx, ih, List.range'_succ]

theorem mem_withIdx_getD {α : Type} (d : α) :
    ∀ (l : List α) (n i : ℕ), i < l.length → (l.getD i d, n + i) ∈ withIdx n l := by
  intro l
  induction l with
  | nil => intro n i h; simp at h
  | cons hd tl ih =>
    intro n i h
    cases i with
    | zero => simp [withIdx]
    | succ j =>
      have := ih (n + 1) j (by simpa using Nat.lt_of_succ_lt_succ h)
      simp only [withIdx, List.getD_cons_succ, List.mem_cons]
      right
      have harith : n + (j + 1) = n + 1 + j := by omega
      rw [harith]
      exact this

theorem mem_withIdx_fst_getD {α : Type} (d : α) :
    ∀ (l : List α) (n : ℕ) (x : α × ℕ), x ∈ withIdx n l → l.getD (x.2 - n) d = x.1 := by
  intro l
  induction l with
  | nil => intro n x h; simp [withIdx] at h
  | cons hd tl ih =>
    intro n x h
    simp only [withIdx, List.mem_cons] at h
    rcases h with h | h
    · subst h; simp
    · have h1 := ih (n + 1) x h
      have h2 : n + 1 ≤ x.2 := by
        have := mem_withIdx_snd_bound tl (n + 1) x h
        exact this.1
      have : x.2 - n = (x.2 - (n + 1)) + 1 := by omega
      rw [this, List.getD_cons_succ]
      exact h1
where
  mem_withIdx_snd_bound : ∀ (l : List α) (n : ℕ) (x : α × ℕ),
      x ∈ withIdx n l → n ≤ x.2 ∧ x.2 < n + l.length := by
    intro l
    induction l with
    | nil => intro n x h; simp [withIdx] at h
    | cons hd tl ih =>
      intro n x h
      simp only [withIdx, List.mem_cons] at h
      rcases h with h | h
      · subst h; simp
      · have := ih (n + 1) x h
        constructor <;> [omega; (simp only [List.length_cons]; omega)]

theorem getD_map_withIdx {α β : Type} (g : α × ℕ → β) (dβ : β) (dα : α) :
    ∀ (l : List α) (n idx : ℕ), idx < l.length →
    ((withIdx n l).map g).getD idx dβ = g (l.getD idx dα, n + idx) := by
  intro l
  induction l with
  | nil => intro n idx h; simp at h
  | cons hd tl ih =>
    intro n idx h
    cases idx with
    | zero => simp [withIdx]
    | succ j =>
      have := ih (n + 1) j (by simpa using Nat.lt_of_succ_lt_succ h)
      simp only [withIdx, List.map_cons, List.getD_cons_succ, List.getD_cons_succ]
      rw [this]
      congr 1
      simp
      omega

theorem getD_map_zip {α β γ : Type} (g : α × β → γ) (d1 : α) (d2 : β) (dg : γ) :
    ∀ (l1 : List α) (l2 : List β) (idx : ℕ), idx < l1.length → idx < l2.length →
    ((l1.zip l2).map g).getD idx dg = g (l1.getD idx d1, l2.getD idx d2) := by
  intro l1
  induction l1 with
  | nil => intro l2 idx h; simp at h
  | cons hd tl ih =>
    intro l2 idx h1 h2
    cases l2 with
    | nil => simp at h2
    | cons hd2 tl2 =>
      cases idx with
      | zero => simp
      | succ j =>
        simp only [List.zip_cons_cons, List.map_cons, List.getD_cons_succ]
        exact ih tl2 j (by simpa using Nat.lt_of_succ_lt_succ h1)
          (by simpa using Nat.lt_of_succ_lt_succ h2)

theorem getD_map {α β : Type} (g : α → β) (d : α) (dg : β) :
    ∀ (l : List α) (idx : ℕ), idx < l.length →
    (l.map g).getD idx dg = g (l.getD idx d) := by
  intro l
  induction l with
  | nil => intro idx h; simp at h
  | cons hd tl ih =>
    intro idx h
    cases idx with
    | zero => simp
    | succ j =>
      simp only [List.map_cons, List.getD_cons_succ]
      exact ih j (by simpa using Nat.lt_of_succ_lt_succ h)

theorem map_fst_recordSet {α : Type} (r : List (String × α)) (k : String) (v : α) :
    (recordSet r k v).map Prod.fst =
      if k ∈ r.map Prod.fst then r.map Prod.fst else r.map Prod.fst ++ [k] := by
  induction r with
  | nil => simp [recordSet]
  | cons hd tl ih =>
    obtain ⟨hk, hv⟩ := hd
    by_cases h1 : hk = k
    · subst h1
      simp [recordSet]
    · have hne : ¬ k = hk := fun h => h1 h.symm
      by_cases h2 : k ∈ tl.map Prod.fst
      · simp [recordSet, h1, ih, h2, hne]
      · simp [recordSet, h1, ih, h2, hne]

/-- Key list after a fold of conditional record assignments over duplicate-free
keys disjoint from the accumulator: the assigned keys are appended in order. -/
theorem map_fst_foldl_recordSet {α : Type} (cond : String → Bool) (fv : String → α) :
    ∀ (ks : List String) (init : List (String × α)), ks.Nodup →
    (∀ k ∈ ks, k ∉ init.map Prod.fst) →
    ((ks.foldl (fun nr k => if cond k then recordSet nr k (fv k) else nr) init).map Prod.fst)
      = init.map Prod.fst ++ ks.filter cond := by
  intro ks
  induction ks with
  | nil => intro init _ _; simp
  | cons hd tl ih =>
    intro init hnd hdisj
    have hdmem : hd ∉ init.map Prod.fst := hdisj hd (List.mem_cons_self hd tl)
    have hstep : ((if cond hd then recordSet init hd (fv hd) else init).map Prod.fst)
        = init.map Prod.fst ++ (if cond hd then [hd] else []) := by
      by_cases hc : cond hd = true
      · simp [hc, map_fst_recordSet, hdmem]
      · simp only [Bool.not_eq_true] at hc
        simp [hc]
    simp only [List.foldl_cons]
    rw [ih _ (List.nodup_cons.1 hnd).2 ?_]
    · rw [hstep]
      by_cases hc : cond hd = true
      · simp [hc, List.filter_cons]
      · simp only [Bool.not_eq_true] at hc
        simp [hc, List.filter_cons]
    · intro k hk
      rw [hstep]
      simp only [List.mem_append]
      rintro (h | h)
      · exact hdisj k (List.mem_cons_of_mem _ hk) h
      · have : k = hd := by
          by_cases hc : cond hd = true
          · simpa [hc] using h
          · simp only [Bool.not_eq_true] at hc
            simp [hc] at h
        exact (List.nodup_cons.1 hnd).1 (this ▸ hk)

/-! ### Claim theorems -/

/-- C1 (code bug evidence): `clone()` copies only the rows array, so the clone
shares its row objects with the original, and `interpolate` on the clone writes
the forward-filled value `1` into the shared `{a: null}` row object — the value
observable through the original handle `d` changes from `null` to `1`,
contradicting the claimed immutability of handed-out handles.  The first
conjunct shows the clone initially observes identical row content. -/
theorem clone_interpolate_mutates_source :
    hRows c1Store (hClone c1Handle) = hRows c1Store c1Handle ∧
    rowGet ((hRows c1Store c1Handle).getD 1 []) "a" = JSValue.vnull ∧
    rowGet ((hRows (interpolate c1Store (hClone c1Handle) (some ["a"])).1 c1Handle).getD 1 [])
        "a" = JSValue.num 1 := by
  decide

/-- C9: `rolling` reads `Object.keys(rows[0])` unconditionally, so on an empty
dataset it throws a `TypeError` instead of returning an empty handle. -/
theorem rolling_empty_throws (t : ToonDataset) (field : String) (w : ℕ) (op : RollOp)
    (h : t.rows = []) :
    rolling t field w op
      = Except.error "TypeError: Cannot convert undefined or null to object" := by
  simp [rolling, h]

/-- Witness for `rolling_empty_throws` at a concrete empty dataset. -/
theorem rolling_empty_throws_witness :
    rolling ⟨"e", [], []⟩ "x" 3 RollOp.sum
      = Except.error "TypeError: Cannot convert undefined or null to object" :=
  rolling_empty_throws ⟨"e", [], []⟩ "x" 3 RollOp.sum rfl

/-- C10: on a dataset with at least one row none of whose selected fields
coerces to a valid number, `norm('max', fields)` is `Math.max()` of an empty
spread, i.e. `-Infinity` (`⊥`); the documented `0` fallback fires exactly when
there is no first row. -/
theorem normMax_neg_infinity (t : ToonDataset) (fields : Option (List String)) :
    (t.rows = [] → normMax t fields = ((0 : ℚ) : WithBot ℚ)) ∧
    (∀ fr, t.rows.head? = some fr →
      (∀ f ∈ fields.getD (t.schema.map Prod.fst), toNum (rowGet fr f) = none) →
      normMax t fields = ⊥) := by
  constructor
  · intro h; simp [normMax, h]
  · intro fr hfr hnone
    have hnil : (fields.getD (t.schema.map Prod.fst)).filterMap
        (fun f => toNum (rowGet fr f)) = [] := by
      rw [List.filterMap_eq_nil_iff]
      exact hnone
    simp [normMax, hfr, hnil]

/-- Witness for `normMax_neg_infinity`: a one-row dataset whose only field is a
non-numeric string gives `⊥`, and the empty dataset gives `0`. -/
theorem normMax_neg_infinity_witness :
    normMax ⟨"N", [("x", "number")], [[("x", JSValue.str "zz")]]⟩ none = ⊥ ∧
    normMax ⟨"N", [("x", "number")], []⟩ none = ((0 : ℚ) : WithBot ℚ) :=
  ⟨(normMax_neg_infinity ⟨"N", [("x", "number")], [[("x", JSValue.str "zz")]]⟩ none).2
      [("x", JSValue.str "zz")] rfl (by decide),
   (normMax_neg_infinity ⟨"N", [("x", "number")], []⟩ none).1 rfl⟩

/-- C7: `stats` aggregates only values that coerce to valid numbers — appending
a row whose field fails coercion leaves the result unchanged — and with zero
valid values (in particular on the empty dataset, and whenever the reported
count is zero) it returns the all-zero record, with no NaN and no exception
(the embedding is a total function into rationals). -/
theorem stats_valid_only (t : ToonDataset) (field : String) :
    (validNums t field = [] → stats t field = ⟨0, 0, 0, 0, 0⟩) ∧
    (∀ r, toNum (rowGet r field) = none →
      stats { t with rows := t.rows ++ [r] } field = stats t field) ∧
    ((stats t field).count = 0 → stats t field = ⟨0, 0, 0, 0, 0⟩) := by
  refine ⟨?_, ?_, ?_⟩
  · intro h; simp [stats, h, statsOf]
  · intro r hr
    have hsame : validNums { t with rows := t.rows ++ [r] } field = validNums t field := by
      simp [validNums, List.filterMap_append, List.filterMap_cons, hr]
    simp [stats, hsame]
  · intro h
    cases hv : validNums t field with
    | nil => simp [stats, hv, statsOf]
    | cons v vs =>
      exfalso
      rw [stats, hv] at h
      simp [statsOf] at h

/-- Witness for `stats_valid_only`: the empty dataset yields the zero record,
and appending an invalid row does not change the result. -/
theorem stats_valid_only_witness :
    stats ⟨"e", [], []⟩ "x" = ⟨0, 0, 0, 0, 0⟩ ∧
    stats ⟨"d", [("x", "number")], [[("x", JSValue.num 4)], [("x", JSValue.str "zz")]]⟩ "x"
      = stats ⟨"d", [("x", "number")], [[("x", JSValue.num 4)]]⟩ "x" :=
  ⟨(stats_valid_only ⟨"e", [], []⟩ "x").1 (by decide),
   (stats_valid_only ⟨"d", [("x", "number")], [[("x", JSValue.num 4)]]⟩ "x").2.1
      [("x", JSValue.str "zz")] (by decide)⟩


/-- C4 (counterexample): passing the fields to `select` in reverse order yields
a result schema in the passed order `["b", "a"]`, not the source-schema
relative order `["a", "b"]` the claim requires. -/
theorem select_schema_order_counterexample :
    (select c4Data ["b", "a"]).schema.map Prod.fst = ["b", "a"] ∧
    (select c4Data ["b", "a"]).schema.map Prod.fst ≠ ["a", "b"] := by
  decide

/-- C4 (amended): `select(fields)` silently ignores unknown field names, and
for a duplicate-free argument list the result schema lists the retained fields
in the order they were passed to `select` (the fields argument filtered by
schema membership), not in source-schema order; each kept row entry holds the
source row's value, and fields not passed are absent from the result rows. -/
theorem select_passed_order (t : ToonDataset) (fields : List String)
    (hnd : fields.Nodup) :
    (select t fields).schema.map Prod.fst
      = fields.filter (fun f => schemaHas t.schema f) ∧
    (∀ idx, idx < t.rows.length → ∀ f,
      ((select t fields).rows.getD idx []).lookup f =
        if f ∈ fields then (t.rows.getD idx []).lookup f else none) := by
  constructor
  · have h := map_fst_foldl_recordSet (fun f => schemaHas t.schema f)
      (fun f => (t.schema.lookup f).getD "") fields [] hnd (by simp)
    simpa [select] using h
  · intro idx hidx f
    have hrow : (select t fields).rows.getD idx [] =
        fields.foldl
          (fun nr g => if ((t.rows.getD idx []).lookup g).isSome
            then recordSet nr g (rowGet (t.rows.getD idx []) g) else nr) [] :=
      getD_map _ [] [] t.rows idx hidx
    rw [hrow, lookup_foldl_recordSet (fun g => ((t.rows.getD idx []).lookup g).isSome)
      (fun g => rowGet (t.rows.getD idx []) g) fields [] f]
    by_cases hmem : f ∈ fields
    · by_cases hs : ((t.rows.getD idx []).lookup f).isSome = true
      · obtain ⟨v, hv⟩ := Option.isSome_iff_exists.1 hs
        rw [if_pos ⟨hmem, hs⟩, if_pos hmem, hv, rowGet_eq_of_lookup hv]
      · have hnone : (t.rows.getD idx []).lookup f = none := by
          rw [← Option.not_isSome_iff_eq_none]
          simpa using hs
        rw [if_neg (fun hh => hs hh.2), if_pos hmem, hnone]
        rfl
    · rw [if_neg (fun hh => hmem hh.1), if_neg hmem]
      rfl

/-- Witness for `select_passed_order`: unknown field `"zz"` is dropped without
error, the schema follows the passed order, and a kept field's value survives. -/
theorem select_passed_order_witness :
    (select c4Data ["b", "a", "zz"]).schema.map Prod.fst = ["b", "a"] ∧
    ((select c4Data ["b", "a", "zz"]).rows.getD 0 []).lookup "a"
      = some (JSValue.num 1) := by
  refine ⟨?_, ?_⟩
  · rw [(select_passed_order c4Data ["b", "a", "zz"] (by decide)).1]
    decide
  · rw [(select_passed_order c4Data ["b", "a", "zz"] (by decide)).2 0 (by decide) "a"]
    decide


/-- C2 (counterexample): `covariance` filters each column independently and
pairs the misaligned filtered lists positionally, giving `1/4` on `c2Data`,
whereas the claimed pairwise-complete covariance over the single jointly valid
row is `0`. -/
theorem covariance_not_pairwise :
    covariance c2Data "a" "b" = 1 / 4 ∧ covariancePairwiseSpec c2Data "a" "b" = 0 := by
  have h1 : validNums c2Data "a" = [1, 2] := by decide
  have h2 : validNums c2Data "b" = [1, 2] := by decide
  have hp : validPairs c2Data "a" "b" = [(2, 2)] := by decide
  constructor
  · unfold covariance
    rw [h1, h2]
    norm_num [List.zip_cons_cons]
  · unfold covariancePairwiseSpec
    rw [hp]
    norm_num

/-- C2 (amended): when the two fields are valid at exactly the same row
positions, `covariance` coincides with the pairwise-complete covariance (mean
cross-deviation over the jointly valid pairs, `0` on zero pairs); with
misaligned validity the implementation instead pairs the independently filtered
columns positionally (or returns `0` on a length mismatch). -/
theorem covariance_pairwise_of_aligned (t : ToonDataset) (f1 f2 : String)
    (h : ∀ r ∈ t.rows, (toNum (rowGet r f1)).isSome ↔ (toNum (rowGet r f2)).isSome) :
    covariance t f1 f2 = covariancePairwiseSpec t f1 f2 := by
  have key : ∀ rows : List Row,
      (∀ r ∈ rows, (toNum (rowGet r f1)).isSome ↔ (toNum (rowGet r f2)).isSome) →
      rows.filterMap (fun r => toNum (rowGet r f1))
          = (rows.filterMap (pairNum f1 f2)).map Prod.fst ∧
        rows.filterMap (fun r => toNum (rowGet r f2))
          = (rows.filterMap (pairNum f1 f2)).map Prod.snd := by
    intro rows
    induction rows with
    | nil => intro _; simp
    | cons r rest ih =>
      intro hall
      have hr := hall r (List.mem_cons_self r rest)
      have ihr := ih (fun r' hr' => hall r' (List.mem_cons_of_mem _ hr'))
      cases h1 : toNum (rowGet r f1) with
      | some a =>
        cases h2 : toNum (rowGet r f2) with
        | some b =>
          simp only [List.filterMap_cons, h1, h2, pairNum, List.map_cons]
          exact ⟨by rw [ihr.1], by rw [ihr.2]⟩
        | none =>
          exfalso
          rw [h1, h2] at hr
          simp at hr
      | none =>
        cases h2 : toNum (rowGet r f2) with
        | some b =>
          exfalso
          rw [h1, h2] at hr
          simp at hr
        | none =>
          simp only [List.filterMap_cons, h1, h2, pairNum]
          exact ihr
  obtain ⟨k1, k2⟩ := key t.rows h
  have k1' : validNums t f1 = (validPairs t f1 f2).map Prod.fst := k1
  have k2' : validNums t f2 = (validPairs t f1 f2).map Prod.snd := k2
  unfold covariance covariancePairwiseSpec
  rw [k1', k2']
  simp only [List.length_map, ne_eq, List.zip_map', Prod.mk.eta, List.map_map]
  by_cases hz : (validPairs t f1 f2).length = 0
  · simp [hz]
  · simp only [hz, or_false, if_neg hz, if_false]
    rfl

/-- Witness for `covariance_pairwise_of_aligned`: on fully valid aligned
columns the two computations agree. -/
theorem covariance_pairwise_of_aligned_witness :
    covariance ⟨"w", [("a", "number"), ("b", "number")],
        [[("a", JSValue.num 1), ("b", JSValue.num 2)],
         [("a", JSValue.num 3), ("b", JSValue.num 5)]]⟩ "a" "b"
      = covariancePairwiseSpec ⟨"w", [("a", "number"), ("b", "number")],
        [[("a", JSValue.num 1), ("b", JSValue.num 2)],
         [("a", JSValue.num 3), ("b", JSValue.num 5)]]⟩ "a" "b" :=
  covariance_pairwise_of_aligned _ "a" "b" (by decide)

/-- Shape of one result row of a successful `addMatrix`: selected keys of the
first row's key list get `addVal`, other first-row keys are copied from the
left row, and nothing else is present. -/
theorem addMatrix_lookup (A B : ToonDataset) (fields : Option (List String))
    (tC : ToonDataset) (hok : addMatrix A B fields = .ok tC)
    (idx : ℕ) (hidx : idx < A.rows.length) (k : String) :
    (tC.rows.getD idx []).lookup k =
      if k ∈ (A.rows.headD []).map Prod.fst ∧ k ∈ fields.getD (A.schema.map Prod.fst)
      then some (addVal (A.rows.getD idx []) (B.rows.getD idx []) k)
      else if k ∈ (A.rows.headD []).map Prod.fst ∧ k ∉ fields.getD (A.schema.map Prod.fst)
      then some (rowGet (A.rows.getD idx []) k)
      else none := by
  have hlen : A.rows.length = B.rows.length := by
    by_contra hne
    unfold addMatrix at hok
    rw [if_pos hne] at hok
    exact Except.noConfusion hok
  unfold addMatrix at hok
  rw [if_neg (fun hc => hc hlen)] at hok
  have hrows := congrArg ToonDataset.rows (Except.ok.inj hok)
  have hrow : tC.rows.getD idx [] =
      (fun pr : Row × Row =>
        ((((A.rows.headD []).map Prod.fst).filter
            (fun k => k ∈ fields.getD (A.schema.map Prod.fst))).foldl
          (fun nr k => recordSet nr k (addVal pr.1 pr.2 k))
          ((((A.rows.headD []).map Prod.fst).filter
              (fun k => k ∉ fields.getD (A.schema.map Prod.fst))).foldl
            (fun nr k => recordSet nr k (rowGet pr.1 k)) [])))
        (A.rows.getD idx [], B.rows.getD idx []) := by
    rw [← hrows]
    exact getD_map_zip _ [] [] [] A.rows B.rows idx hidx (hlen ▸ hidx)
  rw [hrow]
  simp only []
  rw [lookup_foldl_recordSet' (addVal (A.rows.getD idx []) (B.rows.getD idx [])) _ _ k,
    lookup_foldl_recordSet' (rowGet (A.rows.getD idx [])) _ _ k]
  by_cases h1 : k ∈ (A.rows.headD []).map Prod.fst ∧
      k ∈ fields.getD (A.schema.map Prod.fst)
  · have hmem : k ∈ ((A.rows.headD []).map Prod.fst).filter
        (fun k => k ∈ fields.getD (A.schema.map Prod.fst)) := by
      rw [List.mem_filter]
      exact ⟨h1.1, by simpa using h1.2⟩
    rw [if_pos hmem, if_pos h1]
  · have hnmem : k ∉ ((A.rows.headD []).map Prod.fst).filter
        (fun k => k ∈ fields.getD (A.schema.map Prod.fst)) := by
      rw [List.mem_filter]
      intro ⟨ha, hb⟩
      exact h1 ⟨ha, by simpa using hb⟩
    rw [if_neg hnmem, if_neg h1]
    by_cases h2 : k ∈ (A.rows.headD []).map Prod.fst ∧
        k ∉ fields.getD (A.schema.map Prod.fst)
    · have hmem : k ∈ ((A.rows.headD []).map Prod.fst).filter
          (fun k => k ∉ fields.getD (A.schema.map Prod.fst)) := by
        rw [List.mem_filter]
        exact ⟨h2.1, by simpa using h2.2⟩
      rw [if_pos hmem, if_pos h2]
    · have hnmem2 : k ∉ ((A.rows.headD []).map Prod.fst).filter
          (fun k => k ∉ fields.getD (A.schema.map Prod.fst)) := by
        rw [List.mem_filter]
        intro ⟨ha, hb⟩
        exact h2 ⟨ha, by simpa using hb⟩
      rw [if_neg hnmem2, if_neg h2]
      rfl

/-- With equal row counts `addMatrix` succeeds. -/
theorem addMatrix_ok_exists (A B : ToonDataset) (fields : Option (List String))
    (hlen : A.rows.length = B.rows.length) :
    ∃ tC, addMatrix A B fields = .ok tC := by
  cases h : addMatrix A B fields with
  | ok tC => exact ⟨tC, rfl⟩
  | error e =>
    unfold addMatrix at h
    rw [if_neg (fun hc => hc hlen)] at h
    exact Except.noConfusion h

/-- C8: `addMatrix` raises the `ShapeMismatch` error exactly when the row
counts differ; it succeeds exactly when they are equal; and on success every
first-row key outside the selected field list passes through with this
dataset's value unchanged. -/
theorem addMatrix_shape_mismatch (A B : ToonDataset) (fields : Option (List String)) :
    (addMatrix A B fields = .error "Datasets must have the same number of rows"
      ↔ A.rows.length ≠ B.rows.length) ∧
    ((addMatrix A B fields).isOk = true ↔ A.rows.length = B.rows.length) ∧
    (∀ tC, addMatrix A B fields = .ok tC → ∀ idx k,
      k ∈ (A.rows.headD []).map Prod.fst →
      k ∉ fields.getD (A.schema.map Prod.fst) →
      rowGet (tC.rows.getD idx []) k = rowGet (A.rows.getD idx []) k) := by
  refine ⟨?_, ?_, ?_⟩
  · constructor
    · intro he heq
      unfold addMatrix at he
      rw [if_neg (fun hc => hc heq)] at he
      exact Except.noConfusion he
    · intro hne
      unfold addMatrix
      rw [if_pos hne]
  · constructor
    · intro hok
      by_contra hne
      unfold addMatrix at hok
      rw [if_pos hne] at hok
      simp [Except.isOk, Except.toBool] at hok
    · intro hlen
      unfold addMatrix
      rw [if_neg (fun hc => hc hlen)]
      rfl
  · intro tC hok idx k hk hnk
    by_cases hidx : idx < A.rows.length
    · have hl := addMatrix_lookup A B fields tC hok idx hidx k
      rw [if_neg (fun hh => hnk hh.2), if_pos ⟨hk, hnk⟩] at hl
      exact rowGet_eq_of_lookup hl
    · have hlen : A.rows.length = B.rows.length := by
        by_contra hne
        unfold addMatrix at hok
        rw [if_pos hne] at hok
        exact Except.noConfusion hok
      have hrows : tC.rows.length = A.rows.length := by
        unfold addMatrix at hok
        rw [if_neg (fun hc => hc hlen)] at hok
        have h := congrArg ToonDataset.rows (Except.ok.inj hok)
        rw [← h]
        simp [List.length_zip, hlen]
      have h1 : tC.rows.getD idx [] = [] :=
        List.getD_eq_default _ _ (by omega)
      have h2 : A.rows.getD idx [] = [] :=
        List.getD_eq_default _ _ (by omega)
      rw [h1, h2]





/-- Witness for `addMatrix_shape_mismatch`: the mismatched pair errors, the
matched pair succeeds, and the non-selected field `y` passes through. -/
theorem addMatrix_shape_mismatch_witness :
    addMatrix c8A c8Bbad (some ["x"])
      = Except.error "Datasets must have the same number of rows" ∧
    (addMatrix c8A c8B (some ["x"])).isOk = true ∧
    rowGet (c8T.rows.getD 0 []) "y" = JSValue.num 10 := by
  refine ⟨?_, ?_, ?_⟩
  · exact (addMatrix_shape_mismatch c8A c8Bbad (some ["x"])).1.mpr (by decide)
  · exact (addMatrix_shape_mismatch c8A c8B (some ["x"])).2.1.mpr (by decide)
  · rw [(addMatrix_shape_mismatch c8A c8B (some ["x"])).2.2 c8T (by decide) 0 "y"
      (by decide) (by decide)]
    decide



/-- C5 (counterexample): when exactly one side's value fails numeric coercion,
each direction of `addMatrix` keeps its own receiver's raw value, so
`A.addMatrix(B, ['x'])` holds `undefined` where `B.addMatrix(A, ['x'])` holds
`5` — the two are not elementwise equal. -/
theorem addMatrix_not_commutative :
    (addMatrix c5A c5B (some ["x"])).map (fun t => rowGet (t.rows.getD 0 []) "x")
      = Except.ok JSValue.vundef ∧
    (addMatrix c5B c5A (some ["x"])).map (fun t => rowGet (t.rows.getD 0 []) "x")
      = Except.ok (JSValue.num 5) ∧
    JSValue.vundef ≠ JSValue.num 5 := by
  decide

/-- C5 (amended): `addMatrix` is elementwise commutative on the positions where
it actually adds — for equal row counts and the same selected field list, at
every row position and selected first-row key where BOTH sides coerce to valid
numbers, `A.addMatrix(B, fields)` and `B.addMatrix(A, fields)` hold the same
value; where one side fails coercion each direction keeps its receiver's raw
value instead. -/
theorem addMatrix_commutes_on_valid (A B : ToonDataset) (fields : List String)
    (k : String) (idx : ℕ) (a b : ℚ) (tAB tBA : ToonDataset)
    (hka : k ∈ (A.rows.headD []).map Prod.fst)
    (hkb : k ∈ (B.rows.headD []).map Prod.fst)
    (hk : k ∈ fields)
    (ha : toNum (rowGet (A.rows.getD idx []) k) = some a)
    (hb : toNum (rowGet (B.rows.getD idx []) k) = some b)
    (hAB : addMatrix A B (some fields) = .ok tAB)
    (hBA : addMatrix B A (some fields) = .ok tBA) :
    rowGet (tAB.rows.getD idx []) k = rowGet (tBA.rows.getD idx []) k := by
  have hidxA : idx < A.rows.length := by
    by_contra hge
    rw [List.getD_eq_default _ _ (le_of_not_lt hge)] at ha
    simp [rowGet, toNum] at ha
  have hidxB : idx < B.rows.length := by
    by_contra hge
    rw [List.getD_eq_default _ _ (le_of_not_lt hge)] at hb
    simp [rowGet, toNum] at hb
  have e1 : (tAB.rows.getD idx []).lookup k
      = some (addVal (A.rows.getD idx []) (B.rows.getD idx []) k) := by
    rw [addMatrix_lookup A B (some fields) tAB hAB idx hidxA k]
    exact if_pos ⟨hka, hk⟩
  have e2 : (tBA.rows.getD idx []).lookup k
      = some (addVal (B.rows.getD idx []) (A.rows.getD idx []) k) := by
    rw [addMatrix_lookup B A (some fields) tBA hBA idx hidxB k]
    exact if_pos ⟨hkb, hk⟩
  rw [rowGet_eq_of_lookup e1, rowGet_eq_of_lookup e2]
  simp only [addVal, ha, hb]
  rw [add_comm]



/-- Witness for `addMatrix_commutes_on_valid`: on fully valid one-field rows
both directions hold the same value. -/
theorem addMatrix_commutes_on_valid_witness :
    (addMatrix c5wA c5wB (some ["x"])).map (fun t => rowGet (t.rows.getD 0 []) "x")
      = (addMatrix c5wB c5wA (some ["x"])).map (fun t => rowGet (t.rows.getD 0 []) "x") := by
  obtain ⟨tAB, hAB⟩ := addMatrix_ok_exists c5wA c5wB (some ["x"]) rfl
  obtain ⟨tBA, hBA⟩ := addMatrix_ok_exists c5wB c5wA (some ["x"]) rfl
  rw [hAB, hBA]
  exact congrArg Except.ok
    (addMatrix_commutes_on_valid c5wA c5wB ["x"] "x" 0 1 2 tAB tBA (by decide) (by decide)
      (by decide) (by decide) (by decide) hAB hBA)

theorem filterMap_singleton_toList {α β : Type} (f : α → Option β) (a : α) :
    List.filterMap f [a] = (f a).toList := by
  cases h : f a with
  | some b => simp [List.filterMap_cons, h]
  | none => simp [List.filterMap_cons, h]

/-- Peeling the first window position off `wvals`. -/
theorem wvals_cons_split (values : List (Option ℚ)) (s n : ℕ) :
    wvals values s (n + 1) = (values.getD s none).toList ++ wvals values (s + 1) n := by
  unfold wvals
  rw [show List.range' s (n + 1) = [s] ++ List.range' (s + 1) n from by
      rw [List.range'_succ]; rfl,
    List.filterMap_append, filterMap_singleton_toList]

/-- Peeling the last window position off `wvals`. -/
theorem wvals_concat_split (values : List (Option ℚ)) (s n : ℕ) :
    wvals values s (n + 1) = wvals values s n ++ (values.getD (s + n) none).toList := by
  unfold wvals
  rw [List.range'_concat, one_mul, List.filterMap_append, filterMap_singleton_toList]

/-- One rolling iteration maintains the window invariant: given the previous
index's window state where the incremental branch needs it, the step produces
the current index's window state. -/
theorem rollStep_eq (w : ℕ) (hw : 1 ≤ w) (values : List (Option ℚ)) (idx : ℕ)
    (prev : ℚ × ℤ)
    (hprev : idx ≠ 0 → idx + 1 - w ≠ 0 → prev = windowState values w (idx - 1)) :
    rollStep w values idx prev = windowState values w idx := by
  by_cases hcase : idx = 0 ∨ idx + 1 - w = 0
  · unfold rollStep
    rw [if_pos hcase]
    rfl
  · push_neg at hcase
    obtain ⟨h0, hs⟩ := hcase
    have hwle : w ≤ idx := by omega
    have hp := hprev h0 hs
    unfold rollStep
    rw [if_neg (by push_neg; exact ⟨h0, hs⟩)]
    simp only [if_pos hwle]
    have hp' : prev
        = ((wvals values (idx - w) w).sum, ((wvals values (idx - w) w).length : ℤ)) := by
      rw [hp]
      unfold windowState
      rw [show idx - 1 + 1 - w = idx - w from by omega]
      rw [show idx - 1 + 1 - (idx - w) = w from by omega]
    have hgoal : windowState values w idx
        = ((wvals values (idx + 1 - w) w).sum, ((wvals values (idx + 1 - w) w).length : ℤ)) := by
      unfold windowState
      rw [show idx + 1 - (idx + 1 - w) = w from by omega]
    have hkey : (values.getD (idx - w) none).toList ++ wvals values (idx + 1 - w) w
        = wvals values (idx - w) w ++ (values.getD idx none).toList := by
      have h1 := wvals_cons_split values (idx - w) w
      have h2 := wvals_concat_split values (idx - w) w
      rw [show idx - w + 1 = idx + 1 - w from by omega] at h1
      rw [show idx - w + w = idx from by omega] at h2
      rw [← h1, h2]
    rw [hgoal, hp']
    cases hgr : values.getD (idx - w) none with
    | some qr =>
      cases hga : values.getD idx none with
      | some qa =>
        rw [hgr, hga] at hkey
        simp only [Option.toList, List.singleton_append] at hkey
        have hsum := congrArg List.sum hkey
        have hlen := congrArg List.length hkey
        simp only [List.sum_append, List.sum_cons, List.sum_nil, List.length_append,
          List.length_cons, List.length_nil] at hsum hlen
        refine Prod.ext ?_ ?_
        · show (wvals values (idx - w) w).sum - qr + qa = (wvals values (idx + 1 - w) w).sum
          linarith
        · show ((wvals values (idx - w) w).length : ℤ) - 1 + 1
            = ((wvals values (idx + 1 - w) w).length : ℤ)
          omega
      | none =>
        rw [hgr, hga] at hkey
        simp only [Option.toList, List.singleton_append, List.append_nil] at hkey
        have hsum := congrArg List.sum hkey
        have hlen := congrArg List.length hkey
        simp only [List.sum_cons, List.length_cons] at hsum hlen
        refine Prod.ext ?_ ?_
        · show (wvals values (idx - w) w).sum - qr = (wvals values (idx + 1 - w) w).sum
          linarith
        · show ((wvals values (idx - w) w).length : ℤ) - 1
            = ((wvals values (idx + 1 - w) w).length : ℤ)
          omega
    | none =>
      cases hga : values.getD idx none with
      | some qa =>
        rw [hgr, hga] at hkey
        simp only [Option.toList, List.singleton_append, List.nil_append] at hkey
        have hsum := congrArg List.sum hkey
        have hlen := congrArg List.length hkey
        simp only [List.sum_append, List.sum_cons, List.sum_nil, List.length_append,
          List.length_cons, List.length_nil] at hsum hlen
        refine Prod.ext ?_ ?_
        · show (wvals values (idx - w) w).sum + qa = (wvals values (idx + 1 - w) w).sum
          linarith
        · show ((wvals values (idx - w) w).length : ℤ) + 1
            = ((wvals values (idx + 1 - w) w).length : ℤ)
          omega
      | none =>
        rw [hgr, hga] at hkey
        simp only [Option.toList, List.nil_append, List.append_nil] at hkey
        rw [hkey]

/-- The rolling loop produces exactly the window states of its index range. -/
theorem rollStatesAux_eq (w : ℕ) (hw : 1 ≤ w) (values : List (Option ℚ)) :
    ∀ (fuel idx : ℕ) (prev : ℚ × ℤ),
    (idx ≠ 0 → idx + 1 - w ≠ 0 → prev = windowState values w (idx - 1)) →
    rollStatesAux w values idx fuel prev
      = (List.range' idx fuel).map (fun j => windowState values w j) := by
  intro fuel
  induction fuel with
  | zero => intro idx prev _; rfl
  | succ n ih =>
    intro idx prev hprev
    have hst := rollStep_eq w hw values idx prev hprev
    rw [List.range'_succ, List.map_cons]
    show rollStep w values idx prev ::
        rollStatesAux w values (idx + 1) n (rollStep w values idx prev) = _
    rw [hst]
    congr 1
    exact ih (idx + 1) (windowState values w idx) (fun _ _ => by simp)

/-- `rollStates` over a window of positive size lists the window states of all
positions. -/
theorem rollStates_eq (w : ℕ) (hw : 1 ≤ w) (values : List (Option ℚ)) :
    rollStates w values
      = (List.range' 0 values.length).map (fun j => windowState values w j) :=
  rollStatesAux_eq w hw values values.length 0 (0, 0) (fun h _ => absurd rfl h)

theorem getD_map_range' {β : Type} (f : ℕ → β) (d : β) :
    ∀ (n s idx : ℕ), idx < n → ((List.range' s n).map f).getD idx d = f (s + idx) := by
  intro n
  induction n with
  | zero => intro s idx h; omega
  | succ m ih =>
    intro s idx h
    rw [List.range'_succ, List.map_cons]
    cases idx with
    | zero => simp
    | succ j =>
      rw [List.getD_cons_succ]
      rw [ih (s + 1) j (by omega)]
      congr 1
      omega

/-- With at least one row, `rolling` succeeds. -/
theorem rolling_ok_exists (t : ToonDataset) (field : String) (w : ℕ) (op : RollOp)
    (h : t.rows ≠ []) : ∃ t', rolling t field w op = .ok t' := by
  obtain ⟨fr, rest, hfr⟩ : ∃ fr rest, t.rows = fr :: rest := by
    cases hh : t.rows with
    | nil => exact absurd hh h
    | cons a l => exact ⟨a, l, rfl⟩
  cases hres : rolling t field w op with
  | ok t2 => exact ⟨t2, rfl⟩
  | error e =>
    exfalso
    unfold rolling at hres
    rw [hfr] at hres
    simp only [List.head?_cons] at hres
    exact Except.noConfusion hres

/-- C6: `rolling('val', 2, 'avg')` on `[10, 20, 30, 40, 50]` appends
`[10, 15, 25, 35, 45]`; and in general, for `sum`/`avg` with a positive window
size, the appended value at every position `idx` is computed over exactly the
valid coerced values of window `max(0, idx - w + 1) … idx` (left-truncated at
the start), invalid values being excluded from both the window's sum and its
count. -/
theorem rolling_window_spec :
    ((rolling exRolling "val" 2 RollOp.avg).map (fun t => pluck t "val_rolling_avg")
      = Except.ok [JSValue.num 10, JSValue.num 15, JSValue.num 25,
          JSValue.num 35, JSValue.num 45]) ∧
    (∀ (t : ToonDataset) (field : String) (w : ℕ) (op : RollOp) (t' : ToonDataset)
      (idx : ℕ), 1 ≤ w → op = RollOp.sum ∨ op = RollOp.avg →
      rolling t field w op = Except.ok t' → idx < t.rows.length →
      rowGet (t'.rows.getD idx []) (field ++ "_rolling_" ++ op.opName)
        = JSValue.num
            (if op = RollOp.sum
             then (wvals (t.rows.map (fun r => toNum (rowGet r field)))
                    (idx + 1 - w) (idx + 1 - (idx + 1 - w))).sum
             else if 0 < (wvals (t.rows.map (fun r => toNum (rowGet r field)))
                    (idx + 1 - w) (idx + 1 - (idx + 1 - w))).length
             then (wvals (t.rows.map (fun r => toNum (rowGet r field)))
                    (idx + 1 - w) (idx + 1 - (idx + 1 - w))).sum
                  / ((wvals (t.rows.map (fun r => toNum (rowGet r field)))
                    (idx + 1 - w) (idx + 1 - (idx + 1 - w))).length : ℚ)
             else 0)) := by
  constructor
  · have hname : ("val" ++ "_rolling_" ++ "avg" : String) = "val_rolling_avg" := rfl
    norm_num +decide [rolling, exRolling, rollStates, rollStatesAux, rollStep, wvals, toNum,
      rowGet, recordSet, RollOp.opName, pluck, List.range', Except.map, hname,
      List.filterMap_cons, List.lookup_cons, List.getD_eq_getElem?_getD]
  · intro t field w op t' idx hw hop hok hidx
    obtain ⟨fr, hfr⟩ : ∃ fr, t.rows.head? = some fr := by
      cases hh : t.rows with
      | nil => rw [hh] at hidx; simp at hidx
      | cons a l => exact ⟨a, by simp [hh]⟩
    have hlenv : (t.rows.map (fun r => toNum (rowGet r field))).length = t.rows.length :=
      List.length_map _ _
    rcases hop with rfl | rfl
    · simp only [rolling, hfr, Except.ok.injEq] at hok
      have hrows := congrArg ToonDataset.rows hok
      have hres : ((rollStates w (t.rows.map (fun r => toNum (rowGet r field)))).map
            Prod.fst).getD idx 0
          = (windowState (t.rows.map (fun r => toNum (rowGet r field))) w idx).1 := by
        rw [rollStates_eq w hw, List.map_map]
        have h := getD_map_range'
          (Prod.fst ∘ fun j => windowState (t.rows.map (fun r => toNum (rowGet r field))) w j)
          0 (t.rows.map (fun r => toNum (rowGet r field))).length 0 idx (by omega)
        simpa using h
      have hlenr : ((rollStates w (t.rows.map (fun r => toNum (rowGet r field)))).map
          Prod.fst).length = t.rows.length := by
        rw [List.length_map, rollStates_eq w hw, List.length_map, List.length_range', hlenv]
      have hrow : t'.rows.getD idx [] =
          recordSet
            ((fr.map Prod.fst).foldl
              (fun nr k => recordSet nr k (rowGet (t.rows.getD idx []) k)) [])
            (field ++ "_rolling_" ++ RollOp.opName RollOp.sum)
            (JSValue.num
              (((rollStates w (t.rows.map (fun r => toNum (rowGet r field)))).map
                Prod.fst).getD idx 0)) := by
        rw [← hrows]
        exact getD_map_zip
          (fun pr => recordSet
            ((fr.map Prod.fst).foldl (fun nr k => recordSet nr k (rowGet pr.1 k)) [])
            (field ++ "_rolling_" ++ RollOp.opName RollOp.sum) (JSValue.num pr.2))
          [] 0 []
          t.rows ((rollStates w (t.rows.map (fun r => toNum (rowGet r field)))).map Prod.fst)
          idx hidx (by rw [hlenr]; exact hidx)
      rw [hrow, rowGet_recordSet_self, hres, if_pos rfl]
      rfl
    · simp only [rolling, hfr, Except.ok.injEq] at hok
      have hrows := congrArg ToonDataset.rows hok
      have hres : ((rollStates w (t.rows.map (fun r => toNum (rowGet r field)))).map
            (fun p => if 0 < p.2 then p.1 / (p.2 : ℚ) else 0)).getD idx 0
          = (fun p : ℚ × ℤ => if 0 < p.2 then p.1 / (p.2 : ℚ) else 0)
              (windowState (t.rows.map (fun r => toNum (rowGet r field))) w idx) := by
        rw [rollStates_eq w hw, List.map_map]
        have h := getD_map_range'
          ((fun p : ℚ × ℤ => if 0 < p.2 then p.1 / (p.2 : ℚ) else 0)
            ∘ fun j => windowState (t.rows.map (fun r => toNum (rowGet r field))) w j)
          0 (t.rows.map (fun r => toNum (rowGet r field))).length 0 idx (by omega)
        simpa using h
      have hlenr : ((rollStates w (t.rows.map (fun r => toNum (rowGet r field)))).map
          (fun p => if 0 < p.2 then p.1 / (p.2 : ℚ) else 0)).length = t.rows.length := by
        rw [List.length_map, rollStates_eq w hw, List.length_map, List.length_range', hlenv]
      have hrow : t'.rows.getD idx [] =
          recordSet
            ((fr.map Prod.fst).foldl
              (fun nr k => recordSet nr k (rowGet (t.rows.getD idx []) k)) [])
            (field ++ "_rolling_" ++ RollOp.opName RollOp.avg)
            (JSValue.num
              (((rollStates w (t.rows.map (fun r => toNum (rowGet r field)))).map
                (fun p => if 0 < p.2 then p.1 / (p.2 : ℚ) else 0)).getD idx 0)) := by
        rw [← hrows]
        exact getD_map_zip
          (fun pr => recordSet
            ((fr.map Prod.fst).foldl (fun nr k => recordSet nr k (rowGet pr.1 k)) [])
            (field ++ "_rolling_" ++ RollOp.opName RollOp.avg) (JSValue.num pr.2))
          [] 0 []
          t.rows
          ((rollStates w (t.rows.map (fun r => toNum (rowGet r field)))).map
            (fun p => if 0 < p.2 then p.1 / (p.2 : ℚ) else 0))
          idx hidx (by rw [hlenr]; exact hidx)
      rw [hrow, rowGet_recordSet_self, hres,
        if_neg (show ¬ RollOp.avg = RollOp.sum by decide)]
      show JSValue.num
          (if 0 < ((wvals (t.rows.map (fun r => toNum (rowGet r field)))
              (idx + 1 - w) (idx + 1 - (idx + 1 - w))).length : ℤ)
           then (wvals (t.rows.map (fun r => toNum (rowGet r field)))
              (idx + 1 - w) (idx + 1 - (idx + 1 - w))).sum
             / (((wvals (t.rows.map (fun r => toNum (rowGet r field)))
              (idx + 1 - w) (idx + 1 - (idx + 1 - w))).length : ℤ) : ℚ)
           else 0) = _
      by_cases hpos : 0 < (wvals (t.rows.map (fun r => toNum (rowGet r field)))
          (idx + 1 - w) (idx + 1 - (idx + 1 - w))).length
      · rw [if_pos (by exact_mod_cast hpos), if_pos hpos]
        norm_cast
      · rw [if_neg (by exact_mod_cast hpos), if_neg hpos]

/-- Witness for `rolling_window_spec`: instantiating the window theorem at the
concrete five-row dataset, window size 1, position 0 yields the single-element
window sum `10`. -/
theorem rolling_window_spec_witness :
    (rolling exRolling "val" 1 RollOp.sum).map
        (fun t' => rowGet (t'.rows.getD 0 []) "val_rolling_sum")
      = Except.ok (JSValue.num 10) := by
  obtain ⟨t', ht'⟩ := rolling_ok_exists exRolling "val" 1 RollOp.sum (by decide)
  have h := rolling_window_spec.2 exRolling "val" 1 RollOp.sum t' 0 (by decide)
    (Or.inl rfl) ht' (by decide)
  rw [ht']
  simp only [Except.map]
  rw [show ("val" ++ "_rolling_" ++ RollOp.opName RollOp.sum : String) = "val_rolling_sum"
    from rfl] at h
  rw [h]
  simp [wvals, exRolling, toNum, rowGet, List.range']

theorem lookup_recordSetNat (r : List (ℕ × ℕ)) (k k' : ℕ) (v : ℕ) :
    (recordSetNat r k v).lookup k' = if k' = k then some v else r.lookup k' := by
  induction r with
  | nil =>
    by_cases h : k' = k
    · subst h; simp [recordSetNat]
    · have hb : (k' == k) = false := by simpa using h
      simp [recordSetNat, List.lookup_cons, hb, h]
  | cons hd tl ih =>
    obtain ⟨hk, hv⟩ := hd
    by_cases h1 : hk = k
    · subst h1
      by_cases h2 : k' = hk
      · have hb : (k' == hk) = true := by simp [h2]
        simp [recordSetNat, List.lookup_cons, hb, h2]
      · have hb : (k' == hk) = false := by simpa using h2
        simp [recordSetNat, List.lookup_cons, hb, h2]
    · by_cases h2 : k' = hk
      · have hb : (k' == hk) = true := by simp [h2]
        have hne : ¬ k' = k := by rw [h2]; exact h1
        simp [recordSetNat, h1, List.lookup_cons, hb, hne]
      · have hb : (k' == hk) = false := by simpa using h2
        simp [recordSetNat, h1, List.lookup_cons, hb, ih]

theorem length_filterMap_of_isSome {α β : Type} (f : α → Option β) :
    ∀ l : List α, (∀ x ∈ l, (f x).isSome) → (l.filterMap f).length = l.length := by
  intro l
  induction l with
  | nil => intro _; rfl
  | cons hd tl ih =>
    intro h
    obtain ⟨b, hb⟩ := Option.isSome_iff_exists.1 (h hd (List.mem_cons_self hd tl))
    rw [List.filterMap_cons, hb]
    simp only [List.length_cons]
    rw [ih (fun x hx => h x (List.mem_cons_of_mem _ hx))]

/-- `rankChar` only depends on the multiset of column values. -/
theorem rankChar_perm (method : RankMethod) {qs qs' : List ℚ} (h : qs.Perm qs')
    (q : ℚ) : rankChar method qs q = rankChar method qs' q := by
  have hf : (qs.filter (fun v => q < v)).Perm (qs'.filter (fun v => q < v)) :=
    h.filter _
  cases method with
  | dense => simp only [rankChar]; rw [(hf.dedup).length_eq]
  | rmin => simp only [rankChar]; rw [hf.length_eq]
  | rmax => simp only [rankChar]; rw [hf.length_eq]

theorem jsEqNum_some_iff {a b : ℚ} : jsEqNum (some a) (some b) = true ↔ a = b := by
  simp [jsEqNum]

theorem rankLe_le {x y : Option ℚ × ℕ} {qx qy : ℚ} (h : RankLe x y)
    (hx : x.1 = some qx) (hy : y.1 = some qy) : qy ≤ qx := by
  unfold RankLe rankLeB at h
  rw [hx, hy] at h
  simpa using h

/-- Correctness of the rank-assignment loop: with a processed prefix `P` of the
descending-sorted entry list whose ranks are already recorded, processing the
remaining entries `S` maps every entry's original index to its counting
characterisation `rankChar`. -/
theorem rankAssignAux_correct (method : RankMethod) :
    ∀ (S P : List (Option ℚ × ℕ)) (cr : ℕ) (ranks : List (ℕ × ℕ)),
    (∀ x ∈ P ++ S, x.1.isSome) →
    (P ++ S).Pairwise RankLe →
    ((P ++ S).map Prod.snd).Nodup →
    (∀ y ∈ P, ∀ qy, y.1 = some qy →
      ranks.lookup y.2 = some (rankChar method ((P ++ S).filterMap Prod.fst) qy)) →
    (P = [] → cr = 1) →
    ∀ x ∈ P ++ S, ∀ qx, x.1 = some qx →
      (rankAssignAux method S P.getLast? P.length cr ranks).lookup x.2
        = some (rankChar method ((P ++ S).filterMap Prod.fst) qx) := by
  intro S
  induction S with
  | nil =>
    intro P cr ranks hsome hsorted hnodup hranks hcr x hx qx hqx
    have hx' : x ∈ P := by simpa using hx
    have h := hranks x hx' qx hqx
    simpa [rankAssignAux] using h
  | cons z S' ih =>
    intro P cr ranks hsome hsorted hnodup hranks hcr x hx qx hqx
    have hassoc : (P ++ [z]) ++ S' = P ++ z :: S' := by simp
    obtain ⟨qz, hqz⟩ := Option.isSome_iff_exists.1 (hsome z (by simp))
    have hdisj : ∀ y ∈ P, y.2 ≠ z.2 := by
      intro y hy heq
      rw [List.map_append] at hnodup
      have hdis := (List.nodup_append.1 hnodup).2.2
      exact hdis (List.mem_map_of_mem Prod.snd hy) (by rw [heq]; simp)
    have hpairsP := (List.pairwise_append.1 hsorted).2.2
    have hpairsZ := (List.pairwise_append.1 hsorted).2.1
    have hleS : ∀ b ∈ z :: S', ∀ qb, b.1 = some qb → qb ≤ qz := by
      intro b hb qb hqb
      rcases List.mem_cons.1 hb with rfl | hb'
      · rw [hqz] at hqb
        exact le_of_eq (Option.some.inj hqb).symm
      · exact rankLe_le ((List.pairwise_cons.1 hpairsZ).1 b hb') hqz hqb
    have main : ∀ (v cr' : ℕ),
        v = rankChar method ((P ++ z :: S').filterMap Prod.fst) qz →
        (rankAssignAux method S' (some z) (P.length + 1) cr'
            (recordSetNat ranks z.2 v)).lookup x.2
          = some (rankChar method ((P ++ z :: S').filterMap Prod.fst) qx) := by
      intro v cr' hv
      have h1 : (P ++ [z]).getLast? = some z := List.getLast?_concat P
      have h2 : (P ++ [z]).length = P.length + 1 := by simp
      have hranksP' : ∀ y ∈ P ++ [z], ∀ qy, y.1 = some qy →
          (recordSetNat ranks z.2 v).lookup y.2
            = some (rankChar method (((P ++ [z]) ++ S').filterMap Prod.fst) qy) := by
        intro y hy qy hqy
        rw [hassoc]
        rcases List.mem_append.1 hy with hyP | hyz
        · rw [lookup_recordSetNat, if_neg (hdisj y hyP)]
          exact hranks y hyP qy hqy
        · have hyz' : y = z := by simpa using hyz
          subst hyz'
          rw [lookup_recordSetNat, if_pos rfl, hv]
          have hqyz : qy = qz := by
            rw [hqz] at hqy
            exact (Option.some.inj hqy).symm
          rw [hqyz]
      have hres := ih (P ++ [z]) cr' (recordSetNat ranks z.2 v)
        (by rw [hassoc]; exact hsome)
        (by rw [hassoc]; exact hsorted)
        (by rw [hassoc]; exact hnodup)
        hranksP'
        (by intro habs; simp at habs)
        x (by rw [hassoc]; exact hx) qx hqx
      rw [h1, h2, hassoc] at hres
      exact hres
    cases hlast : P.getLast? with
    | none =>
      have hP : P = [] := by
        cases P with
        | nil => rfl
        | cons a l => simp [List.getLast?_concat] at hlast
      subst hP
      simp only [rankAssignAux]
      have hchar : ((z :: S').filterMap Prod.fst).filter (fun v => qz < v) = [] := by
        rw [List.filter_eq_nil_iff]
        intro a ha
        obtain ⟨b, hb, hfb⟩ := List.mem_filterMap.1 ha
        simpa using not_lt.mpr (hleS b hb a hfb)
      have hchar1 : rankChar method ((([] : List (Option ℚ × ℕ)) ++ z :: S').filterMap
          Prod.fst) qz = 1 := by
        rw [List.nil_append]
        cases method with
        | dense =>
          simp only [rankChar]
          rw [hchar]
          simp
        | rmin =>
          simp only [rankChar]
          rw [hchar]
          rfl
        | rmax =>
          simp only [rankChar]
          rw [hchar]
          rfl
      by_cases hm : method = RankMethod.rmin ∨ method = RankMethod.rmax
      · rw [if_pos hm]
        exact main (0 + 1) (0 + 1) (by rw [hchar1])
      · rw [if_neg hm]
        rw [hcr rfl]
        exact main 1 1 (by rw [hchar1])
    | some p =>
      obtain ⟨P₀, hP₀⟩ := List.getLast?_eq_some_iff.mp hlast
      have hpP : p ∈ P := by rw [hP₀]; simp
      obtain ⟨qp, hqp⟩ := Option.isSome_iff_exists.1 (hsome p (List.mem_append_left _ hpP))
      have hgeP : ∀ y ∈ P, ∀ qy, y.1 = some qy → qp ≤ qy := by
        intro y hy qy hqy
        have hpairP : P.Pairwise RankLe := (List.pairwise_append.1 hsorted).1
        rw [hP₀] at hy hpairP
        rcases List.mem_append.1 hy with hy0 | hyp
        · exact rankLe_le ((List.pairwise_append.1 hpairP).2.2 y hy0 p (by simp)) hqy hqp
        · have hyp' : y = p := by simpa using hyp
          subst hyp'
          rw [hqp] at hqy
          exact le_of_eq (Option.some.inj hqy)
      have hzp : qz ≤ qp := rankLe_le (hpairsP p hpP z (by simp)) hqp hqz
      simp only [rankAssignAux]
      by_cases htie : jsEqNum z.1 p.1 = true
      · rw [if_pos htie]
        have hqzp : qz = qp := by
          rw [hqz, hqp] at htie
          exact jsEqNum_some_iff.1 htie
        have hlookp := hranks p hpP qp hqp
        exact main ((ranks.lookup p.2).getD 0) cr (by rw [hlookp, hqzp]; rfl)
      · rw [if_neg htie]
        have hqzp : qz ≠ qp := by
          intro h
          apply htie
          rw [hqz, hqp]
          exact jsEqNum_some_iff.2 h
        have hzplt : qz < qp := lt_of_le_of_ne hzp hqzp
        have hgtP : ∀ y ∈ P, ∀ qy, y.1 = some qy → qz < qy :=
          fun y hy qy hqy => lt_of_lt_of_le hzplt (hgeP y hy qy hqy)
        have hAsplit : (P ++ z :: S').filterMap Prod.fst
            = P.filterMap Prod.fst ++ (z :: S').filterMap Prod.fst :=
          List.filterMap_append _ _ _
        have hfilter : ((P ++ z :: S').filterMap Prod.fst).filter (fun v => qz < v)
            = P.filterMap Prod.fst := by
          rw [hAsplit, List.filter_append]
          have e1 : (P.filterMap Prod.fst).filter (fun v => qz < v)
              = P.filterMap Prod.fst := by
            rw [List.filter_eq_self]
            intro a ha
            obtain ⟨y, hy, hfy⟩ := List.mem_filterMap.1 ha
            simpa using hgtP y hy a hfy
          have e2 : ((z :: S').filterMap Prod.fst).filter (fun v => qz < v) = [] := by
            rw [List.filter_eq_nil_iff]
            intro a ha
            obtain ⟨b, hb, hfb⟩ := List.mem_filterMap.1 ha
            simpa using not_lt.mpr (hleS b hb a hfb)
          rw [e1, e2, List.append_nil]
        have hlenP : (P.filterMap Prod.fst).length = P.length :=
          length_filterMap_of_isSome _ P (fun y hy => hsome y (List.mem_append_left _ hy))
        have hP0len : 0 < P.length := by rw [hP₀]; simp
        cases method with
        | dense =>
          rw [if_pos ⟨rfl, hP0len⟩]
          have hlookp := hranks p hpP qp hqp
          have hfilterp : ((P ++ z :: S').filterMap Prod.fst).filter (fun v => qp < v)
              = (P.filterMap Prod.fst).filter (fun v => qp < v) := by
            rw [hAsplit, List.filter_append]
            have e2 : ((z :: S').filterMap Prod.fst).filter (fun v => qp < v) = [] := by
              rw [List.filter_eq_nil_iff]
              intro a ha
              obtain ⟨b, hb, hfb⟩ := List.mem_filterMap.1 ha
              simpa using not_lt.mpr ((hleS b hb a hfb).trans hzplt.le)
            rw [e2, List.append_nil]
          have hins : (P.filterMap Prod.fst).toFinset
              = insert qp (((P.filterMap Prod.fst).filter (fun v => qp < v)).toFinset) := by
            ext a
            simp only [List.mem_toFinset, Finset.mem_insert, List.mem_filter,
              decide_eq_true_eq]
            constructor
            · intro ha
              obtain ⟨y, hy, hfy⟩ := List.mem_filterMap.1 ha
              rcases eq_or_lt_of_le (hgeP y hy a hfy) with heq | hlt
              · exact Or.inl heq.symm
              · exact Or.inr ⟨ha, hlt⟩
            · rintro (rfl | ⟨ha, _⟩)
              · exact List.mem_filterMap.2 ⟨p, hpP, hqp⟩
              · exact ha
          have hnotmem : qp ∉ ((P.filterMap Prod.fst).filter (fun v => qp < v)).toFinset := by
            simp only [List.mem_toFinset, List.mem_filter, decide_eq_true_eq]
            rintro ⟨_, hlt⟩
            exact lt_irrefl qp hlt
          have hdedup : (P.filterMap Prod.fst).dedup.length
              = ((P.filterMap Prod.fst).filter (fun v => qp < v)).dedup.length + 1 := by
            rw [← List.card_toFinset, ← List.card_toFinset, hins,
              Finset.card_insert_of_not_mem hnotmem]
          refine main ((ranks.lookup p.2).getD 0 + 1) ((ranks.lookup p.2).getD 0 + 1) ?_
          rw [hlookp]
          simp only [Option.getD_some, rankChar]
          rw [hfilter, hfilterp, hdedup]
          omega
        | rmin =>
          rw [if_neg (by simp), if_pos (Or.inl rfl)]
          refine main (P.length + 1) (P.length + 1) ?_
          simp only [rankChar]
          rw [hfilter, hlenP]
          omega
        | rmax =>
          rw [if_neg (by simp), if_pos (Or.inr rfl)]
          refine main (P.length + 1) (P.length + 1) ?_
          simp only [rankChar]
          rw [hfilter, hlenP]
          omega

theorem filterMap_fst_withIdx {β : Type} :
    ∀ (n : ℕ) (l : List (Option β)), (withIdx n l).filterMap Prod.fst = l.filterMap id := by
  intro n l
  induction l generalizing n with
  | nil => rfl
  | cons hd tl ih =>
    cases hd with
    | some b => simp [withIdx, List.filterMap_cons, ih]
    | none => simp [withIdx, List.filterMap_cons, ih]

/-- C3 (counterexample): on values `[5, 5, 3]` with method `'max'` the code
assigns the tied `5`s rank `1` (the position of the FIRST tied element, as for
`'min'`), not the claimed rank `2` (the position of the last tied element). -/
theorem rank_max_counterexample :
    pluck (rank c3Data "v" RankMethod.rmax) "v_rank"
      = [JSValue.num 1, JSValue.num 1, JSValue.num 3] ∧
    pluck (rank c3Data "v" RankMethod.rmax) "v_rank"
      ≠ [JSValue.num 2, JSValue.num 2, JSValue.num 3] := by
  decide

/-- C3 (amended): `rank(field, method)` on an all-valid column ranks descending
(the largest value gets rank 1) with equal values receiving equal rank; `dense`
assigns one plus the number of distinct strictly greater values (no gaps after
ties), and BOTH `min` and `max` assign one plus the number of strictly greater
values — i.e. the 1-based ordinal position of the first tied element; the
implemented `'max'` is identical to `'min'`. -/
theorem rank_descending_ties (t : ToonDataset) (field : String) (method : RankMethod)
    (idx : ℕ) (q : ℚ)
    (hall : ∀ r ∈ t.rows, (toNum (rowGet r field)).isSome)
    (hidx : idx < t.rows.length)
    (hq : toNum (rowGet (t.rows.getD idx []) field) = some q) :
    rowGet ((rank t field method).rows.getD idx []) (field ++ "_rank")
      = JSValue.num (rankChar method (validNums t field) q) := by
  have hvlen : (t.rows.map (fun r => toNum (rowGet r field))).length = t.rows.length :=
    List.length_map _ _
  have hgetv : (t.rows.map (fun r => toNum (rowGet r field))).getD idx none = some q := by
    rw [getD_map (fun r => toNum (rowGet r field)) [] none t.rows idx hidx]
    exact hq
  have hperm : (List.insertionSort RankLe
        (withIdx 0 (t.rows.map (fun r => toNum (rowGet r field))))).Perm
      (withIdx 0 (t.rows.map (fun r => toNum (rowGet r field)))) :=
    List.perm_insertionSort _ _
  have hsomeL : ∀ x ∈ List.insertionSort RankLe
      (withIdx 0 (t.rows.map (fun r => toNum (rowGet r field)))), x.1.isSome := by
    intro x hx
    have hx' := hperm.mem_iff.1 hx
    have hfst : x.1 ∈ t.rows.map (fun r => toNum (rowGet r field)) := by
      have := List.mem_map_of_mem Prod.fst hx'
      rwa [withIdx_map_fst] at this
    obtain ⟨r, hr, hre⟩ := List.mem_map.1 hfst
    rw [← hre]
    exact hall r hr
  have hsorted : (List.insertionSort RankLe
      (withIdx 0 (t.rows.map (fun r => toNum (rowGet r field))))).Pairwise RankLe :=
    List.sorted_insertionSort RankLe _
  have hnodup : ((List.insertionSort RankLe
      (withIdx 0 (t.rows.map (fun r => toNum (rowGet r field))))).map Prod.snd).Nodup := by
    have h1 := (hperm.map Prod.snd).symm
    have h2 : ((withIdx 0 (t.rows.map (fun r => toNum (rowGet r field)))).map
        Prod.snd).Nodup := by
      rw [withIdx_map_snd]
      exact List.nodup_range' _ _
    exact h2.perm h1
  have hxmem : ((some q : Option ℚ), idx) ∈ List.insertionSort RankLe
      (withIdx 0 (t.rows.map (fun r => toNum (rowGet r field)))) := by
    apply hperm.mem_iff.2
    have := mem_withIdx_getD none (t.rows.map (fun r => toNum (rowGet r field))) 0 idx
      (by rw [hvlen]; exact hidx)
    rw [hgetv, Nat.zero_add] at this
    exact this
  have hmain := rankAssignAux_correct method
    (List.insertionSort RankLe (withIdx 0 (t.rows.map (fun r => toNum (rowGet r field)))))
    [] 1 []
    (by intro x hx; exact hsomeL x (by simpa using hx))
    (by simpa using hsorted)
    (by simpa using hnodup)
    (by intro y hy qy hqy; exact absurd hy (List.not_mem_nil y))
    (fun _ => rfl)
    ((some q : Option ℚ), idx) (by simpa using hxmem) q rfl
  simp only [List.nil_append, List.length_nil, List.getLast?_nil] at hmain
  have hcperm : ((List.insertionSort RankLe
        (withIdx 0 (t.rows.map (fun r => toNum (rowGet r field))))).filterMap
      Prod.fst).Perm (validNums t field) := by
    have h1 := hperm.filterMap Prod.fst
    rw [filterMap_fst_withIdx] at h1
    have h2 : (t.rows.map (fun r => toNum (rowGet r field))).filterMap id
        = validNums t field := by
      rw [List.filterMap_map]
      rfl
    rwa [h2] at h1
  have hchar_eq := rankChar_perm method hcperm q
  have hrow : (rank t field method).rows.getD idx []
      = recordSet (t.rows.getD idx []) (field ++ "_rank")
          (match (rankAssignAux method
              (List.insertionSort RankLe
                (withIdx 0 (t.rows.map (fun r => toNum (rowGet r field)))))
              none 0 1 []).lookup idx with
           | some r => JSValue.num r
           | none => JSValue.vundef) := by
    have := getD_map_withIdx
      (fun pr : Row × ℕ => recordSet pr.1 (field ++ "_rank")
        (match (rankAssignAux method
            (List.insertionSort RankLe
              (withIdx 0 (t.rows.map (fun r => toNum (rowGet r field)))))
            none 0 1 []).lookup pr.2 with
         | some r => JSValue.num r
         | none => JSValue.vundef))
      [] [] t.rows 0 idx hidx
    rw [Nat.zero_add] at this
    exact this
  have hval : (match (rankAssignAux method
      (List.insertionSort RankLe
        (withIdx 0 (t.rows.map (fun r => toNum (rowGet r field)))))
      none 0 1 []).lookup idx with
       | some r => JSValue.num r
       | none => JSValue.vundef)
      = JSValue.num (rankChar method ((List.insertionSort RankLe
          (withIdx 0 (t.rows.map (fun r => toNum (rowGet r field))))).filterMap
        Prod.fst) q) := by
    rw [hmain]
  rw [hrow, rowGet_recordSet_self, hval, hchar_eq]

/-- Witness for `rank_descending_ties`: in the spec's scoring scenario
`[85, 92, 78, 92, 88]` with dense ranking, the first row's score `85` has two
distinct greater values, so its dense rank is `3`. -/
theorem rank_descending_ties_witness :
    rowGet ((rank exScore "score" RankMethod.dense).rows.getD 0 []) "score_rank"
      = JSValue.num 3 := by
  have h := rank_descending_ties exScore "score" RankMethod.dense 0 85
    (by decide) (by decide) (by decide)
  rw [show ("score" ++ "_rank" : String) = "score_rank" from rfl] at h
  rw [h]
  decide

end ToonJS
